import Mathlib

/-!
Verification development for the Narrator mask-application resolution cache.

The definitions below are a shallow embedding of:
  * `src/extensions/masks/mask_apply.py` — `AppliedMaskManager` (cache layer over
    the `applied_masks` table) and `MessageCache` (relayed-message ownership cache);
  * `src/data/sql/ormclasses.py` — the `AppliedMask` ORM class and `ensure_id`;
  * `src/util/channel_hierarchy.py` — subchannel traversal.

Python dictionaries are modelled as association lists with insertion-order update
semantics; machine integers are `Nat` (Discord snowflakes are non-negative and no
overflow is relevant here); fallible code returns `Except` paired with the state
left behind by the partially executed operation (Python exceptions do not roll
back prior mutations).
-/

/-- Python `dict` lookup (`d[k]`): `none` models a raised `KeyError`. -/
def dictGet {K V : Type} [DecidableEq K] : List (K × V) → K → Option V
  | [], _ => none
  | (k', v) :: rest, k => if k = k' then some v else dictGet rest k

/-- Python `dict` assignment (`d[k] = v`): replaces an existing binding in place,
otherwise appends (insertion order). -/
def dictSet {K V : Type} [DecidableEq K] : List (K × V) → K → V → List (K × V)
  | [], k, v => [(k, v)]
  | (k', v') :: rest, k, v =>
    if k = k' then (k, v) :: rest else (k', v') :: dictSet rest k v

/-- Python `dict.pop(k, None)`: removes the binding for `k` if present. -/
def dictDel {K V : Type} [DecidableEq K] : List (K × V) → K → List (K × V)
  | [], _ => []
  | (k', v') :: rest, k => if k = k' then rest else (k', v') :: dictDel rest k

/-- Source: `_AppliedMaskKey` (`mask_apply.py`) — cache key of the manager. -/
structure _AppliedMaskKey where
  owner_id : Nat
  channel_id : Nat
deriving DecidableEq

/-- Source: ORM class `AppliedMask` (`ormclasses.py`) — one row of the
`applied_masks` table.  The `mask` relationship is represented by `mask_id`. -/
structure AppliedMask where
  mask_id : Nat
  channel_id : Nat
  guild_id : Nat
  owner_id : Nat
  recursive : Bool
deriving DecidableEq

/-- The backing store's rows for the `applied_masks` table, as a multiset of rows
(a list); the single-row-per-key property is proved, not assumed. -/
abbrev AppliedStore := List AppliedMask

/-- Source: `AppliedMask.get(owner, channel)` — the store collaborator's lookup of
the row for the `(owner, channel)` pair (spec section 6: `get_applied`). -/
def AppliedMask.get (owner channel : Nat) (store : AppliedStore) : Option AppliedMask :=
  List.find? (fun r => r.owner_id == owner && r.channel_id == channel) store

/-- Source: `session.delete(row)` inside `AppliedMask.delete` — removes that one
row object from the store. -/
def storeDelete : AppliedStore → AppliedMask → AppliedStore
  | [], _ => []
  | r :: rest, a => if r = a then rest else r :: storeDelete rest a

/-- Errors surfaced by the manager: Python `KeyError` (both the cache-miss and the
cannot-remove-non-existent cases) and an injected backing-store failure. -/
inductive MgrErr where
  | keyError
  | storeError
deriving DecidableEq

/-- The in-memory state of one `AppliedMaskManager`: the `_cache` dict
(`None` value = confirmed negative) together with the backing store. -/
structure MgrState where
  cache : List (_AppliedMaskKey × Option AppliedMask)
  store : AppliedStore
deriving DecidableEq

/-- Source: `User = discord.User|discord.Member|int` (and likewise `Channel`):
either a raw id or a Discord object carrying an `.id`. -/
inductive UserOrId where
  | int (id : Nat)
  | obj (id : Nat)
deriving DecidableEq

/-- Source: `ensure_id` (`ormclasses.py`): returns `obj` if it is an `int`,
otherwise `obj.id`. -/
def ensure_id : UserOrId → Nat
  | .int i => i
  | .obj i => i

namespace AppliedMaskManager

/-- Source: `AppliedMaskManager._store` — writes a cache entry (no lock). -/
def _store (s : MgrState) (obj : Option AppliedMask) (owner_id channel_id : Nat) : MgrState :=
  { s with cache := dictSet s.cache ⟨owner_id, channel_id⟩ obj }

/-- Source: `AppliedMaskManager._retrieve` — cache lookup; `none` = `KeyError`. -/
def _retrieve (s : MgrState) (owner_id channel_id : Nat) : Option (Option AppliedMask) :=
  dictGet s.cache ⟨owner_id, channel_id⟩

/-- Source: `AppliedMaskManager._remove` — reads the cached entry (raising
`KeyError` if absent, leaving the state untouched), then marks the key as
negative and returns the previous entry. -/
def _remove (s : MgrState) (owner_id channel_id : Nat) :
    Except MgrErr (Option AppliedMask) × MgrState :=
  match dictGet s.cache ⟨owner_id, channel_id⟩ with
  | none => (.error .keyError, s)
  | some v => (.ok v, { s with cache := dictSet s.cache ⟨owner_id, channel_id⟩ none })

/-- Source: `AppliedMaskManager.fetch` body after `ensure_id` normalisation:
reads the store for the exact key and caches the result (positive or negative). -/
def fetchCore (s : MgrState) (user channel : Nat) : Option AppliedMask × MgrState :=
  let application := AppliedMask.get user channel s.store
  (application, _store s application user channel)

/-- Source: `AppliedMaskManager.get` body after `ensure_id` normalisation:
cache-only read, `KeyError` when the key is unknown. -/
def getCore (s : MgrState) (user channel : Nat) : Except MgrErr (Option AppliedMask) :=
  match _retrieve s user channel with
  | none => .error .keyError
  | some v => .ok v

/-- Source: `AppliedMaskManager.may_fetch`: `get`, falling back to `fetch` on
`KeyError`. -/
def mayFetchCore (s : MgrState) (user channel : Nat) : Option AppliedMask × MgrState :=
  match getCore s user channel with
  | .ok v => (v, s)
  | .error _ => fetchCore s user channel

/-- Source: `AppliedMaskManager.remove` body after `ensure_id` normalisation.
`deleteFails` injects a backing-store failure at the `await app.delete()` call;
note that on the cached-positive path `_remove` has already marked the cache
negative before the delete is attempted. -/
def removeCore (s : MgrState) (user channel : Nat) (deleteFails : Bool) :
    Except MgrErr AppliedMask × MgrState :=
  match _remove s user channel with
  | (.ok appOpt, s1) =>
    match appOpt with
    | none => (.error .keyError, s1)
    | some app =>
      if deleteFails then (.error .storeError, s1)
      else (.ok app, { s1 with store := storeDelete s1.store app })
  | (.error _, _) =>
    -- `except KeyError:` — fall back to a store read while still holding the lock
    match AppliedMask.get user channel s.store with
    | none => (.error .keyError, s)
    | some app =>
      if deleteFails then (.error .storeError, s)
      else (.ok app, { s with store := storeDelete s.store app })

/-- Source: `AppliedMaskManager.set`: `remove` (ignoring `KeyError` only), then
`AppliedMask.new` (insert, `newFails` injects a store failure there), then cache
the new row.  Store errors from the inner `remove` propagate. -/
def setCore (s : MgrState) (mask_id owner_id channel_id guild_id : Nat) (recursive : Bool)
    (removeDeleteFails newFails : Bool) : Except MgrErr AppliedMask × MgrState :=
  let r := removeCore s owner_id channel_id removeDeleteFails
  match r.1 with
  | .error .storeError => (.error .storeError, r.2)
  | _ =>
    if newFails then (.error .storeError, r.2)
    else
      let obj : AppliedMask := ⟨mask_id, channel_id, guild_id, owner_id, recursive⟩
      let s2 : MgrState := { r.2 with store := obj :: r.2.store }
      (.ok obj, _store s2 (some obj) owner_id channel_id)

/-- Source: `AppliedMaskManager.fetch_all`: clears the cache and repopulates it
with a positive entry for every row scanned from the store; returns all rows. -/
def fetch_allCore (s : MgrState) : List AppliedMask × MgrState :=
  (s.store,
   { cache :=
       List.foldl (fun c app => dictSet c ⟨app.owner_id, app.channel_id⟩ (some app)) [] s.store,
     store := s.store })

/-- Source: `AppliedMaskManager.fetch` — public entry performing `ensure_id`. -/
def fetch (s : MgrState) (user channel : UserOrId) : Option AppliedMask × MgrState :=
  fetchCore s (ensure_id user) (ensure_id channel)

/-- Source: `AppliedMaskManager.get` — public entry performing `ensure_id`. -/
def get (s : MgrState) (user channel : UserOrId) : Except MgrErr (Option AppliedMask) :=
  getCore s (ensure_id user) (ensure_id channel)

/-- Source: `AppliedMaskManager.may_fetch` — `get` falling back to `fetch`,
each of which performs its own `ensure_id` normalisation. -/
def may_fetch (s : MgrState) (user channel : UserOrId) : Option AppliedMask × MgrState :=
  match get s user channel with
  | .ok v => (v, s)
  | .error _ => fetch s user channel

/-- Source: `AppliedMaskManager.remove` — public entry performing `ensure_id`. -/
def remove (s : MgrState) (user channel : UserOrId) (deleteFails : Bool) :
    Except MgrErr AppliedMask × MgrState :=
  removeCore s (ensure_id user) (ensure_id channel) deleteFails

end AppliedMaskManager

/-- A node of the Discord channel containment tree as seen through its parent
chain: a guild root, or a channel/thread with an `id` and a parent node. -/
inductive HParent where
  | root (id : Nat)
  | node (id : Nat) (parent : HParent)
deriving DecidableEq

/-- The `.id` attribute of a Discord node. -/
def HParent.id : HParent → Nat
  | .root i => i
  | .node i _ => i

/-- Whether the node is the guild root. -/
def HParent.isRoot : HParent → Bool
  | .root _ => true
  | .node _ _ => false

/-- The `.parent` attribute: `none` for the guild root. -/
def parentOf : HParent → Option HParent
  | .root _ => none
  | .node _ p => some p

/-- The strict ancestor chain of a node, nearest parent first, ending with the
guild root (defined directly by structural recursion, independent of
`get_all_parents`). -/
def strictAncestors : HParent → List HParent
  | .root _ => []
  | .node _ p => p :: strictAncestors p

/-- Modelled from the spec: `get_all_parents(node, include_this, include_root)` is
imported by `mask_apply.py` from `util.channel_hierarchy` but no definition of it
exists anywhere under `src/`.  The spec describes it as the lazy sequence of the
node's direct parents from the nearest ancestor to the farthest, optionally
preceded by the node itself (`include_this`) and terminating before or after the
guild root depending on `include_root`. -/
def get_all_parents (c : HParent) (include_this include_root : Bool) : List HParent :=
  (if include_this then [c] else []) ++
    List.filter (fun n => include_root || !n.isRoot) (strictAncestors c)

namespace AppliedMaskManager

/-- The `for hierarchy_element in get_all_parents(...)` loop body of
`AppliedMaskManager.hierarchical`: `may_fetch` each ancestor, skip (`continue`)
when there is no application or it is not recursive, return the first recursive
hit. -/
def hierWalk (user : Nat) : MgrState → List HParent → Option AppliedMask × MgrState
  | s, [] => (none, s)
  | s, h :: rest =>
    let r := mayFetchCore s user h.id
    match r.1 with
    | none => hierWalk user r.2 rest
    | some a => if a.recursive then (some a, r.2) else hierWalk user r.2 rest

/-- Source: `AppliedMaskManager.hierarchical`: `may_fetch` the channel itself;
if that is a confirmed negative, walk `get_all_parents(channel, include_this=False,
include_root=False)` returning the first recursive application. -/
def hierarchical (s : MgrState) (user : Nat) (channel : HParent) :
    Option AppliedMask × MgrState :=
  let direct := mayFetchCore s user channel.id
  match direct.1 with
  | some d => (some d, direct.2)
  | none => hierWalk user direct.2 (get_all_parents channel false false)

end AppliedMaskManager

/-- The concrete kinds of `_SUBCHANNEL_LUT` in `channel_hierarchy.py`. -/
inductive ChanKind where
  | guild
  | category
  | text
  | forum
  | voice
  | stage
  | thread
deriving DecidableEq

/-- A node of the channel tree with its children collection (the attribute the
look-up table reads: `channels` or `threads`). -/
inductive HTree where
  | node (id : Nat) (kind : ChanKind) (children : List HTree)

/-- The `.id` attribute of a tree node. -/
def HTree.nodeId : HTree → Nat
  | .node i _ _ => i

/-- The kind of a tree node. -/
def HTree.nodeKind : HTree → ChanKind
  | .node _ k _ => k

/-- `_SUBCHANNEL_LUT`: which kinds have a subchannel attribute (`voice`, `stage`
and `thread` map to `None`). -/
def hasSubchannelAttr : ChanKind → Bool
  | .guild => true
  | .category => true
  | .text => true
  | .forum => true
  | .voice => false
  | .stage => false
  | .thread => false

/-- Source: `get_subchannels` (`channel_hierarchy.py`): the direct subchannels of
a node — the empty list when the look-up table holds `None`. -/
def get_subchannels : HTree → List HTree
  | .node _ k cs => if hasSubchannelAttr k then cs else []

mutual

/-- Source: `_get_all_subchannels_depth`: yields each subchannel followed by its
own recursive traversal (pre-order). -/
def _get_all_subchannels_depth : HTree → List HTree
  | .node _ k cs => if hasSubchannelAttr k then _depthOver cs else []

/-- The `for sub in subchannels` loop of `_get_all_subchannels_depth`. -/
def _depthOver : List HTree → List HTree
  | [] => []
  | t :: ts => t :: (_get_all_subchannels_depth t ++ _depthOver ts)

end

/-- Source: `_get_all_subchannels_breadth`, evaluated to recursion depth `fuel`.
The Python generator yields the direct subchannels, then `for sub in subchannels`
re-runs `_get_all_subchannels_breadth(channel)` — the recursive call is on
`channel`, not `sub`.  The result is the list of elements yielded within `fuel`
nested generator activations together with a flag telling whether the generator
ran to completion inside that budget; the real generator's behaviour is the
`fuel → ∞` limit, so `false` at every `fuel` means the generator never
terminates. -/
def _get_all_subchannels_breadth : Nat → HTree → List HTree × Bool
  | 0, _ => ([], false)
  | fuel + 1, c =>
    let subs := get_subchannels c
    if subs.isEmpty then (subs, true)
    else
      let r := _get_all_subchannels_breadth fuel c
      if r.2 then (subs ++ (List.replicate subs.length r.1).flatten, true)
      else (subs ++ r.1, false)

/-- Discord object equality (`__eq__` compares the class and the `.id`). -/
def HTree.sameObj (a b : HTree) : Bool :=
  a.nodeId == b.nodeId && a.nodeKind == b.nodeKind

/-- Source: `is_subchannel`: membership of `channel` in
`get_all_subchannels(parent, breadth_first=True)`, evaluated with recursion
budget `fuel`: `some true` when found in the yielded prefix, `some false` when
the generator completed without yielding it, `none` when the membership test is
still running after the budget. -/
def is_subchannel (fuel : Nat) (channel parent : HTree) : Option Bool :=
  let r := _get_all_subchannels_breadth fuel parent
  if r.1.any (fun n => n.sameObj channel) then some true
  else if r.2 then some false
  else none

/-- Errors raised by `MessageCache`: `RuntimeError` on a duplicate `push`,
`KeyError` on `pop` of an absent handle. -/
inductive RelayErr where
  | runtimeError
  | keyError
deriving DecidableEq

/-- One timer scheduled on the event loop by `asyncio.get_running_loop()
.call_later(delay, self.pop, message)`: its handle id, absolute fire time and
the message-handle argument of the callback. -/
structure TimerEntry where
  tid : Nat
  time : Nat
  msg : Nat
deriving DecidableEq

/-- The state of one `MessageCache` together with the cooperative event loop it
schedules timers on.  `lifetime` is `_message_lifetime` in seconds; `messages`
is `_messages` (handle id to member id); `call_tasks` is `_call_tasks` (handle
id to `TimerHandle`, stored here by timer id); `timers` are the not-yet-fired,
not-cancelled timers of the loop; `now` is the monotonic clock. -/
structure RelayState where
  lifetime : Option Nat
  messages : List (Nat × Nat)
  call_tasks : List (Nat × Nat)
  timers : List TimerEntry
  now : Nat
  nextTid : Nat
deriving DecidableEq

namespace MessageCache

/-- Source: `MessageCache.__init__` with a numeric `lifetime` in minutes:
`self._message_lifetime = lifetime*60` seconds. -/
def init (lifetimeMinutes : Option Nat) : RelayState :=
  ⟨lifetimeMinutes.map (· * 60), [], [], [], 0, 0⟩

/-- Source: `MessageCache.push`: `RuntimeError` if the handle is cached (state
untouched); record the owner; when a lifetime is configured, schedule
`call_later(self._message_lifetime, self.pop, message)` and remember its
`TimerHandle` in `_call_tasks`. -/
def push (st : RelayState) (message owner : Nat) : Except RelayErr Unit × RelayState :=
  if (dictGet st.messages message).isSome then (.error .runtimeError, st)
  else
    let st1 := { st with messages := dictSet st.messages message owner }
    match st1.lifetime with
    | none => (.ok (), st1)
    | some lt =>
      (.ok (),
       { st1 with
         timers := st1.timers ++ [⟨st1.nextTid, st1.now + lt, message⟩],
         call_tasks := dictSet st1.call_tasks message st1.nextTid,
         nextTid := st1.nextTid + 1 })

/-- Source: `MessageCache.pop`: `self._call_tasks.pop(message, None)` removes the
`TimerHandle` from the dict — it does not cancel the scheduled timer, which
stays in the loop's queue — then `self._messages.pop(message)` raises `KeyError`
if the handle is absent (the `_call_tasks` mutation has already happened). -/
def pop (st : RelayState) (message : Nat) : Except RelayErr Nat × RelayState :=
  let st1 := { st with call_tasks := dictDel st.call_tasks message }
  match dictGet st1.messages message with
  | none => (.error .keyError, st1)
  | some owner => (.ok owner, { st1 with messages := dictDel st1.messages message })

/-- Advance the monotonic clock (time passing between calls). -/
def advanceTo (st : RelayState) (t : Nat) : RelayState :=
  { st with now := t }

/-- The event loop fires a scheduled timer once its deadline is reached: the
timer leaves the queue and its callback `self.pop(message)` runs; a `KeyError`
escaping the callback is reported to the loop's exception handler. -/
def fireTimer (st : RelayState) (t : TimerEntry) : Except RelayErr Nat × RelayState :=
  pop { st with
        timers := List.filter (fun e => e.tid != t.tid) st.timers,
        now := max st.now t.time } t.msg

end MessageCache

open AppliedMaskManager

/-- The section-8 scenario state: owner 42 applies mask 1 with `recursive=True`
to category 100, then mask 2 with `recursive=False` directly to channel 101
(guild 999), starting from an empty manager and store. -/
def scenarioState : MgrState :=
  (setCore (setCore ⟨[], []⟩ 1 42 100 999 true false false).2 2 42 101 999 false false false).2

/-- Category 100 inside guild 999. -/
def cat100 : HParent := .node 100 (.root 999)

/-- Channel 101 inside category 100. -/
def chan101 : HParent := .node 101 cat100

/-- Thread 1010 inside channel 101. -/
def thread1010 : HParent := .node 1010 chan101

/-- Claim C1 counterexample: in the section-8 scenario the claim asserts
`hierarchical(42, 1010)` returns `None`; on the code it does not — the
`continue` in `hierarchical` skips the non-recursive binding on channel 101 and
the walk goes on to category 100, whose recursive binding is returned. -/
theorem C1_counterexample :
    (hierarchical scenarioState 42 thread1010).1 ≠ none := by
  decide

/-- Claim C1 amended: in the section-8 scenario, `hierarchical(42, 1010)`
returns the maskA (id 1) binding of category 100 — the non-recursive binding on
the intermediate channel 101 is skipped, it does not block the cascade — while
`hierarchical(42, 101)` returns the maskB (id 2) binding applied directly to
channel 101. -/
theorem C1_amended_scenario :
    (hierarchical scenarioState 42 thread1010).1 = some ⟨1, 100, 999, 42, true⟩ ∧
    (hierarchical scenarioState 42 chan101).1 = some ⟨2, 101, 999, 42, false⟩ := by
  constructor
  · rfl
  · rfl

/-- A concrete manager state for the failed-delete counterexample: the key
`(42, 101)` is cached positively and the row is in the store. -/
def row42101 : AppliedMask := ⟨1, 101, 999, 42, true⟩

/-- Manager state caching `row42101` positively with the row present in the
store. -/
def stateC2 : MgrState := ⟨[(⟨42, 101⟩, some row42101)], [row42101]⟩

/-- Claim C2 counterexample: with key `(42, 101)` cached positively, a `remove`
whose store delete fails propagates the store error, but the in-memory cache
entry for the key is no longer what it was before the call — `_remove` has
already marked it negative before the delete was attempted. -/
theorem C2_counterexample :
    (removeCore stateC2 42 101 true).1 = .error .storeError ∧
    dictGet stateC2.cache ⟨42, 101⟩ = some (some row42101) ∧
    dictGet (removeCore stateC2 42 101 true).2.cache ⟨42, 101⟩ = some none := by
  refine ⟨rfl, rfl, rfl⟩

/-- Claim C2 amended: store failures inside `set`/`remove` propagate unchanged
to the caller (no retry, no translation), but the cache entry is not always
preserved: when the key is cached, `remove` marks the entry negative before the
store delete is attempted, so a failed delete leaves the entry negative (store
untouched); when the key is not cached a failed delete leaves the whole state
unchanged; and a failed insert inside `set` leaves the state as the inner
successful `remove` left it — entry negative, old row already deleted. -/
theorem C2_amended_failure_semantics :
    (∀ (s : MgrState) (u c : Nat) (a : AppliedMask),
      dictGet s.cache ⟨u, c⟩ = some (some a) →
      removeCore s u c true =
        (.error .storeError, { s with cache := dictSet s.cache ⟨u, c⟩ none })) ∧
    (∀ (s : MgrState) (u c : Nat),
      dictGet s.cache ⟨u, c⟩ = none →
      (removeCore s u c true).2 = s ∧ ∃ e, (removeCore s u c true).1 = .error e) ∧
    (∀ (s : MgrState) (m u c g : Nat) (rec : Bool) (a : AppliedMask),
      dictGet s.cache ⟨u, c⟩ = some (some a) →
      setCore s m u c g rec false true =
        (.error .storeError,
         ⟨dictSet s.cache ⟨u, c⟩ none, storeDelete s.store a⟩)) := by
  refine ⟨?_, ?_, ?_⟩
  · intro s u c a h
    simp [removeCore, _remove, h]
  · intro s u c h
    simp only [removeCore, _remove, h]
    cases hg : AppliedMask.get u c s.store <;> simp
  · intro s m u c g rec a h
    simp [setCore, removeCore, _remove, h]

/-- Claim C2 amended, witness at the concrete counterexample state. -/
theorem C2_amended_failure_semantics_witness :
    removeCore stateC2 42 101 true =
      (.error .storeError, { stateC2 with cache := dictSet stateC2.cache ⟨42, 101⟩ none }) :=
  C2_amended_failure_semantics.1 stateC2 42 101 row42101 rfl

/-- Relay cache with a one-minute lifetime after `push(5, 8)` at `t = 0`:
entry for handle 5, stale-to-be timer 0 scheduled for `t = 60`. -/
def relay1 : RelayState := (MessageCache.push (MessageCache.init (some 1)) 5 8).2

/-- … after `pop(5)` at `t = 10`: entry removed, `_call_tasks` emptied, but
timer 0 still scheduled. -/
def relay2 : RelayState := (MessageCache.pop (MessageCache.advanceTo relay1 10) 5).2

/-- … after a fresh `push(5, 9)` at `t = 20`: new entry with its own timer 1
scheduled for `t = 80`. -/
def relay3 : RelayState := (MessageCache.push (MessageCache.advanceTo relay2 20) 5 9).2

/-- Claim C3: false on the code.  `pop` removes the `TimerHandle` from
`_call_tasks` without cancelling it, so the timer scheduled by the first
`push(5, ...)` still fires at `t = 60`: after `pop` and a re-`push` at `t = 20`
(own deadline `t = 80`), the stale timer's callback pops the re-inserted entry
at `t = 60` — before its own lifetime elapsed — and when the handle is absent
altogether the fired callback raises `KeyError` instead of being a no-op. -/
theorem C3_stale_timer_fires :
    ((MessageCache.fireTimer relay3 ⟨0, 60, 5⟩).1 = .ok 9 ∧
      dictGet (MessageCache.fireTimer relay3 ⟨0, 60, 5⟩).2.messages 5 = none ∧
      (MessageCache.fireTimer relay3 ⟨0, 60, 5⟩).2.now = 60 ∧
      dictGet relay3.call_tasks 5 = some 1 ∧
      (⟨1, 80, 5⟩ : TimerEntry) ∈ relay3.timers) ∧
    (MessageCache.fireTimer relay2 ⟨0, 60, 5⟩).1 = .error .keyError := by
  exact ⟨⟨rfl, by decide, by decide, by decide, by decide⟩, rfl⟩

/-- Claim C10: each read/remove operation of the manager normalises its `user`
and `channel` arguments through `ensure_id` before touching cache or store, so a
Discord object and its raw id are interchangeable: `fetch`, `get`, `may_fetch`
and `remove` behave identically on `(obj i, obj j)` and `(int i, int j)`, both
addressing the `(i, j)` key. -/
theorem C10_ensure_id_normalisation :
    ∀ (s : MgrState) (i j : Nat) (b : Bool),
      fetch s (.obj i) (.obj j) = fetch s (.int i) (.int j) ∧
      fetch s (.int i) (.int j) = fetchCore s i j ∧
      get s (.obj i) (.obj j) = get s (.int i) (.int j) ∧
      get s (.int i) (.int j) = getCore s i j ∧
      may_fetch s (.obj i) (.obj j) = may_fetch s (.int i) (.int j) ∧
      may_fetch s (.int i) (.int j) = mayFetchCore s i j ∧
      remove s (.obj i) (.obj j) b = remove s (.int i) (.int j) b ∧
      remove s (.int i) (.int j) b = removeCore s i j b := by
  intro s i j b
  exact ⟨rfl, rfl, rfl, rfl, rfl, rfl, rfl, rfl⟩

theorem dictGet_dictSet_self {K V : Type} [DecidableEq K] (d : List (K × V)) (k : K) (v : V) :
    dictGet (dictSet d k v) k = some v := by
  induction d with
  | nil => simp [dictGet, dictSet]
  | cons p rest ih =>
    by_cases h : k = p.1
    · simp [dictGet, dictSet, h]
    · simp [dictGet, dictSet, h, ih]

theorem dictGet_dictSet_ne {K V : Type} [DecidableEq K] (d : List (K × V)) (k k' : K) (v : V)
    (h : k' ≠ k) : dictGet (dictSet d k v) k' = dictGet d k' := by
  induction d with
  | nil => simp [dictGet, dictSet, h]
  | cons p rest ih =>
    by_cases hk : k = p.1
    · subst hk
      simp [dictGet, dictSet, h]
    · by_cases hk' : k' = p.1
      · simp [dictGet, dictSet, hk, hk']
      · simp [dictGet, dictSet, hk, hk', ih]

/-- Claim C8: after `may_fetch` returns a value (positive or confirmed
negative), an immediately following `get` on the same key returns that same
value without the not-cached error — `may_fetch` always leaves the key cached. -/
theorem C8_may_fetch_then_get :
    ∀ (s : MgrState) (u c : Nat),
      getCore (mayFetchCore s u c).2 u c = .ok (mayFetchCore s u c).1 := by
  intro s u c
  unfold mayFetchCore getCore _retrieve fetchCore _store
  cases h : dictGet s.cache ⟨u, c⟩ with
  | some v => simp [getCore, _retrieve, h]
  | none => simp [getCore, _retrieve, h, dictGet_dictSet_self]

/-- The `n`-fold iterated parent of a node (`0` is the node itself). -/
def nthAncestor : HParent → Nat → Option HParent
  | c, 0 => some c
  | c, n + 1 =>
    match parentOf c with
    | none => none
    | some p => nthAncestor p n

/-- The guild root at the top of a node's parent chain. -/
def rootAncestor : HParent → HParent
  | .root i => .root i
  | .node _ p => rootAncestor p

theorem get_all_parents_root_included (c : HParent) :
    get_all_parents c false true = strictAncestors c := by
  simp [get_all_parents]

theorem strictAncestors_get? (c : HParent) :
    ∀ k : Nat, (strictAncestors c).get? k = nthAncestor c (k + 1) := by
  induction c with
  | root i => intro k; simp [strictAncestors, nthAncestor, parentOf]
  | node i p ih =>
    intro k
    cases k with
    | zero => simp [strictAncestors, nthAncestor, parentOf]
    | succ n => exact ih n

theorem strictAncestors_split (c : HParent) (h : c.isRoot = false) :
    strictAncestors c =
      List.filter (fun n => !n.isRoot) (strictAncestors c) ++ [rootAncestor c] := by
  induction c with
  | root i => simp [HParent.isRoot] at h
  | node i p ih =>
    cases p with
    | root r => simp [strictAncestors, rootAncestor, HParent.isRoot]
    | node j q =>
      have hp : (HParent.node j q).isRoot = false := rfl
      calc strictAncestors (.node i (.node j q))
          = .node j q :: strictAncestors (.node j q) := rfl
        _ = .node j q ::
              (List.filter (fun n => !n.isRoot) (strictAncestors (.node j q)) ++
                [rootAncestor (.node j q)]) := by rw [← ih hp]
        _ = List.filter (fun n => !n.isRoot) (strictAncestors (.node i (.node j q))) ++
              [rootAncestor (.node i (.node j q))] := by
            simp [strictAncestors, rootAncestor, HParent.isRoot]

/-- Claim C5: the ancestor traversal (modelled from the spec, since
`get_all_parents` is imported but not defined under `src/`) yields exactly the
chain of the node's direct parents from nearest to farthest: with both flags
the `k`-th yielded element is the `(k+1)`-fold parent; `include_this` prepends
the node itself; and for a non-root node dropping `include_root` removes
exactly the final guild-root element of the chain. -/
theorem C5_get_all_parents_spec :
    (∀ (c : HParent) (k : Nat),
      (get_all_parents c false true).get? k = nthAncestor c (k + 1)) ∧
    (∀ (c : HParent) (ir : Bool),
      get_all_parents c true ir = c :: get_all_parents c false ir) ∧
    (∀ c : HParent, c.isRoot = false →
      get_all_parents c false true = get_all_parents c false false ++ [rootAncestor c]) := by
  refine ⟨?_, ?_, ?_⟩
  · intro c k
    rw [get_all_parents_root_included]
    exact strictAncestors_get? c k
  · intro c ir
    simp [get_all_parents]
  · intro c h
    rw [get_all_parents_root_included]
    have := strictAncestors_split c h
    simp only [get_all_parents, if_neg (by simp : ¬ (false = true)), List.nil_append]
    simpa using this

/-- Claim C5, witness: the characterisation applied to channel 101 (a non-root
node two levels below its guild). -/
theorem C5_get_all_parents_spec_witness :
    (get_all_parents chan101 false true).get? 0 = nthAncestor chan101 1 ∧
    get_all_parents chan101 false true =
      get_all_parents chan101 false false ++ [rootAncestor chan101] :=
  ⟨C5_get_all_parents_spec.1 chan101 0, C5_get_all_parents_spec.2.2 chan101 rfl⟩

/-- The value `may_fetch` resolves for a key: the cached entry when the key is
cached, otherwise the store's row (which `fetch` would return and cache). -/
def mayFetchVal (s : MgrState) (user channel : Nat) : Option AppliedMask :=
  match dictGet s.cache ⟨user, channel⟩ with
  | some v => v
  | none => AppliedMask.get user channel s.store

theorem mayFetchCore_fst (s : MgrState) (u c : Nat) :
    (mayFetchCore s u c).1 = mayFetchVal s u c := by
  unfold mayFetchCore getCore _retrieve fetchCore mayFetchVal
  cases h : dictGet s.cache ⟨u, c⟩ <;> simp [h]

theorem mayFetchVal_after_mayFetchCore (s : MgrState) (u c u' c' : Nat) :
    mayFetchVal (mayFetchCore s u c).2 u' c' = mayFetchVal s u' c' := by
  unfold mayFetchCore getCore _retrieve fetchCore _store
  cases h : dictGet s.cache ⟨u, c⟩ with
  | some v => simp [h]
  | none =>
    simp only [h]
    by_cases hk : (⟨u', c'⟩ : _AppliedMaskKey) = ⟨u, c⟩
    · have hu : u' = u := congrArg _AppliedMaskKey.owner_id hk
      have hc : c' = c := congrArg _AppliedMaskKey.channel_id hk
      subst hu; subst hc
      unfold mayFetchVal
      simp [dictGet_dictSet_self, h]
    · unfold mayFetchVal
      simp [dictGet_dictSet_ne _ _ _ _ hk]

/-- What the `hierarchical` ancestor loop extracts from one ancestor: the
resolved application if it exists and is recursive, otherwise nothing. -/
def walkTarget (s : MgrState) (u : Nat) (n : HParent) : Option AppliedMask :=
  match mayFetchVal s u n.id with
  | none => none
  | some a => if a.recursive then some a else none

theorem walkTarget_after_mayFetchCore (s : MgrState) (u c : Nat) :
    walkTarget (mayFetchCore s u c).2 u = walkTarget s u :=
  funext fun n => by unfold walkTarget; rw [mayFetchVal_after_mayFetchCore]

theorem hierWalk_fst (u : Nat) :
    ∀ (nodes : List HParent) (s : MgrState),
      (hierWalk u s nodes).1 = nodes.findSome? (walkTarget s u) := by
  intro nodes
  induction nodes with
  | nil => intro s; simp [hierWalk, List.findSome?]
  | cons h t ih =>
    intro s
    simp only [hierWalk, List.findSome?_cons]
    rw [mayFetchCore_fst]
    have hw := walkTarget_after_mayFetchCore s u h.id
    cases hv : mayFetchVal s u h.id with
    | none => simp [walkTarget, hv, ih, hw]
    | some a =>
      by_cases hr : a.recursive <;> simp [walkTarget, hv, hr, ih, hw]

theorem hierarchical_fst (s : MgrState) (u : Nat) (X : HParent) :
    (hierarchical s u X).1 =
      match mayFetchVal s u X.id with
      | some d => some d
      | none => (get_all_parents X false false).findSome? (walkTarget s u) := by
  simp only [hierarchical]
  rw [mayFetchCore_fst]
  have hw := walkTarget_after_mayFetchCore s u X.id
  cases hv : mayFetchVal s u X.id with
  | some d => simp [hv]
  | none => simp [hv, hierWalk_fst, hw]

/-- The strict ancestor chain with the guild root left out, nearest parent
first, defined by direct recursion (child-to-root order by construction). -/
def nonRootAncestors : HParent → List HParent
  | .root _ => []
  | .node _ p =>
    match p with
    | .root _ => []
    | .node j q => .node j q :: nonRootAncestors (.node j q)

theorem get_all_parents_no_root (X : HParent) :
    get_all_parents X false false = nonRootAncestors X := by
  induction X with
  | root i => rfl
  | node i p ih =>
    cases p with
    | root r => simp [get_all_parents, strictAncestors, nonRootAncestors, HParent.isRoot]
    | node j q =>
      have ih2 : List.filter (fun n => false || !n.isRoot)
          (strictAncestors (HParent.node j q)) = nonRootAncestors (HParent.node j q) := ih
      show List.filter (fun n => false || !n.isRoot)
          (HParent.node j q :: strictAncestors (HParent.node j q)) =
        HParent.node j q :: nonRootAncestors (HParent.node j q)
      rw [List.filter_cons_of_pos]
      · rw [ih2]
      · simp [HParent.isRoot]

/-- Claim C7: hierarchical resolution precedence.  (1) For owner `u` and
channel `x` directly inside category `c` of guild `g`: when the resolved value
for `x` is the confirmed negative and `c` carries a recursive application `a`,
`hierarchical` returns `a`.  (2) Whenever the exact key resolves positively,
`hierarchical` returns that direct binding, whatever the `recursive` flags are.
(3) The ancestors are visited strictly child-to-root: the walk list is exactly
the nearest-first ancestor chain without the root. -/
theorem C7_hierarchy_precedence :
    (∀ (s : MgrState) (u : Nat) (a : AppliedMask) (x c g : Nat),
      mayFetchVal s u x = none →
      mayFetchVal s u c = some a →
      a.recursive = true →
      (hierarchical s u (.node x (.node c (.root g)))).1 = some a) ∧
    (∀ (s : MgrState) (u : Nat) (X : HParent) (a : AppliedMask),
      mayFetchVal s u X.id = some a →
      (hierarchical s u X).1 = some a) ∧
    (∀ X : HParent, get_all_parents X false false = nonRootAncestors X) := by
  refine ⟨?_, ?_, get_all_parents_no_root⟩
  · intro s u a x c g hx hc hr
    rw [hierarchical_fst]
    simp only [HParent.id, hx]
    rw [get_all_parents_no_root]
    simp [nonRootAncestors, List.findSome?_cons, walkTarget, HParent.id, hc, hr]
  · intro s u X a hX
    rw [hierarchical_fst, hX]

/-- Claim C7, witness: a state caching a recursive application for category 100
and nothing else; channel 5 in that category resolves to the category's
binding, and a state with a direct binding returns it. -/
theorem C7_hierarchy_precedence_witness :
    (hierarchical ⟨[(⟨7, 100⟩, some ⟨3, 100, 1, 7, true⟩)], []⟩ 7
        (.node 5 (.node 100 (.root 1)))).1 = some ⟨3, 100, 1, 7, true⟩ :=
  C7_hierarchy_precedence.1 ⟨[(⟨7, 100⟩, some ⟨3, 100, 1, 7, true⟩)], []⟩ 7
    ⟨3, 100, 1, 7, true⟩ 5 100 1 (by decide) (by decide) rfl

/-- No positive entry for the key: the cache holds nothing or a confirmed
negative, and the store has no row for the pair. -/
def noPositive (s : MgrState) (u c : Nat) : Prop :=
  (dictGet s.cache ⟨u, c⟩ = none ∨ dictGet s.cache ⟨u, c⟩ = some none) ∧
  AppliedMask.get u c s.store = none

/-- Every cached entry agrees with the store: the operating invariant of the
manager (each positive or negative entry was produced from a store read or a
completed store write). -/
def cacheConsistent (s : MgrState) : Prop :=
  ∀ (u c : Nat) (v : Option AppliedMask),
    dictGet s.cache ⟨u, c⟩ = some v → v = AppliedMask.get u c s.store

theorem dictGet_warm_cache (u c : Nat) (rows : List AppliedMask)
    (h : ∀ r ∈ rows, ¬(r.owner_id = u ∧ r.channel_id = c)) :
    ∀ d0 : List (_AppliedMaskKey × Option AppliedMask), dictGet d0 ⟨u, c⟩ = none →
      dictGet
        (List.foldl (fun cc app => dictSet cc ⟨app.owner_id, app.channel_id⟩ (some app)) d0 rows)
        ⟨u, c⟩ = none := by
  induction rows with
  | nil => intro d0 h0; simpa using h0
  | cons r rest ih =>
    intro d0 h0
    have hr : ¬(r.owner_id = u ∧ r.channel_id = c) := h r (List.mem_cons_self r rest)
    have hk : (⟨u, c⟩ : _AppliedMaskKey) ≠ ⟨r.owner_id, r.channel_id⟩ := by
      intro he
      exact hr ⟨(congrArg _AppliedMaskKey.owner_id he).symm,
        (congrArg _AppliedMaskKey.channel_id he).symm⟩
    have hrest : ∀ x ∈ rest, ¬(x.owner_id = u ∧ x.channel_id = c) :=
      fun x hx => h x (List.mem_cons_of_mem r hx)
    simp only [List.foldl_cons]
    exact ih hrest _ (by rw [dictGet_dictSet_ne _ _ _ _ hk]; exact h0)

theorem store_none_no_match {u c : Nat} {store : AppliedStore}
    (hs : AppliedMask.get u c store = none) :
    ∀ r ∈ store, ¬(r.owner_id = u ∧ r.channel_id = c) := by
  intro r hr hc
  have := List.find?_eq_none.mp hs r hr
  simp [hc.1, hc.2] at this

/-- Claim C6: with a consistent cache, `remove(owner, channel)` raises the
no-such-application `KeyError` exactly when neither the cache nor the store
holds a positive entry for the key; on such a never-set key a second `remove`
raises again, and so does a `remove` issued after `fetch_all` warmed the cache
from a store containing no row for the key. -/
theorem C6_remove_error_iff :
    ∀ (s : MgrState) (u c : Nat), cacheConsistent s →
      (((removeCore s u c false).1 = .error .keyError) ↔ noPositive s u c) ∧
      (noPositive s u c →
        (removeCore s u c false).1 = .error .keyError ∧
        (removeCore (removeCore s u c false).2 u c false).1 = .error .keyError ∧
        (removeCore (fetch_allCore s).2 u c false).1 = .error .keyError) := by
  intro s u c hcons
  have hiff : ((removeCore s u c false).1 = .error .keyError) ↔ noPositive s u c := by
    constructor
    · intro herr
      cases hcache : dictGet s.cache ⟨u, c⟩ with
      | none =>
        cases hstore : AppliedMask.get u c s.store with
        | none => exact ⟨Or.inl hcache, hstore⟩
        | some app =>
          simp [removeCore, _remove, hcache, hstore] at herr
      | some v =>
        cases v with
        | none =>
          exact ⟨Or.inr hcache, (hcons u c none hcache).symm⟩
        | some app =>
          simp [removeCore, _remove, hcache] at herr
    · intro ⟨hc, hs⟩
      cases hc with
      | inl hnone => simp [removeCore, _remove, hnone, hs]
      | inr hneg => simp [removeCore, _remove, hneg]
  refine ⟨hiff, fun hnp => ⟨hiff.mpr hnp, ?_, ?_⟩⟩
  · obtain ⟨hc, hs⟩ := hnp
    cases hc with
    | inl hnone =>
      have hstate : (removeCore s u c false).2 = s := by
        simp [removeCore, _remove, hnone, hs]
      rw [hstate]
      cases hc2 : dictGet s.cache ⟨u, c⟩ with
      | none => simp [removeCore, _remove, hc2, hs]
      | some v => rw [hnone] at hc2; exact absurd hc2 (by simp)
    | inr hneg =>
      have hstate : (removeCore s u c false).2 =
          { s with cache := dictSet s.cache ⟨u, c⟩ none } := by
        simp [removeCore, _remove, hneg]
      rw [hstate]
      simp [removeCore, _remove, dictGet_dictSet_self]
  · obtain ⟨hc, hs⟩ := hnp
    have hwarm : dictGet (fetch_allCore s).2.cache ⟨u, c⟩ = none := by
      simp only [fetch_allCore]
      exact dictGet_warm_cache u c s.store (store_none_no_match hs) [] rfl
    have hstore2 : AppliedMask.get u c (fetch_allCore s).2.store = none := hs
    simp [removeCore, _remove, hwarm, hstore2]

/-- Claim C6, witness: the empty manager over the empty store, key `(1, 2)`. -/
theorem C6_remove_error_iff_witness :
    (((removeCore ⟨[], []⟩ 1 2 false).1 = .error .keyError) ↔ noPositive ⟨[], []⟩ 1 2) ∧
    (noPositive ⟨[], []⟩ 1 2 →
      (removeCore ⟨[], []⟩ 1 2 false).1 = .error .keyError ∧
      (removeCore (removeCore ⟨[], []⟩ 1 2 false).2 1 2 false).1 = .error .keyError ∧
      (removeCore (fetch_allCore ⟨[], []⟩).2 1 2 false).1 = .error .keyError) :=
  C6_remove_error_iff ⟨[], []⟩ 1 2 (fun _ _ _ h => nomatch h)

/-- One user-facing mutation of the manager (no injected store failures). -/
inductive MgrOp where
  | setOp (mask_id owner channel guild : Nat) (recursive : Bool)
  | removeOp (owner channel : Nat)

/-- Run one mutation, keeping the state it leaves behind (a raised
no-such-application `KeyError` is caught by the caller and the sequence goes
on). -/
def applyOp (s : MgrState) : MgrOp → MgrState
  | .setOp m o c g r => (setCore s m o c g r false false).2
  | .removeOp o c => (removeCore s o c false).2

/-- The manager as constructed at startup: empty cache, empty store. -/
def emptyMgr : MgrState := ⟨[], []⟩

/-- Run a sequence of `set`/`remove` calls from the empty manager and store. -/
def runOps (ops : List MgrOp) : MgrState :=
  List.foldl applyOp emptyMgr ops

/-- Number of store rows for the `(owner, channel)` pair. -/
def countKey (store : AppliedStore) (o c : Nat) : Nat :=
  List.countP (fun r => r.owner_id == o && r.channel_id == c) store

theorem countP_storeDelete_le (p : AppliedMask → Bool) :
    ∀ (l : AppliedStore) (a : AppliedMask),
      List.countP p (storeDelete l a) ≤ List.countP p l := by
  intro l a
  induction l with
  | nil => simp [storeDelete]
  | cons r rest ih =>
    by_cases h : r = a
    · simp only [storeDelete, if_pos h, List.countP_cons]
      omega
    · simp only [storeDelete, if_neg h, List.countP_cons]
      omega

theorem countP_storeDelete_of_pred (p : AppliedMask → Bool) :
    ∀ (l : AppliedStore) (a : AppliedMask), a ∈ l → p a = true →
      List.countP p (storeDelete l a) + 1 = List.countP p l := by
  intro l a hmem hp
  induction l with
  | nil => simp at hmem
  | cons r rest ih =>
    by_cases h : r = a
    · subst h
      simp [storeDelete, List.countP_cons, hp]
    · have hmem' : a ∈ rest := by
        cases List.mem_cons.mp hmem with
        | inl he => exact absurd he.symm h
        | inr hr => exact hr
      simp only [storeDelete, if_neg h, List.countP_cons]
      have := ih hmem'
      omega

theorem find?_storeDelete_of_neg (p : AppliedMask → Bool) :
    ∀ (l : AppliedStore) (a : AppliedMask), p a = false →
      List.find? p (storeDelete l a) = List.find? p l := by
  intro l a hp
  induction l with
  | nil => simp [storeDelete]
  | cons r rest ih =>
    by_cases h : r = a
    · subst h
      rw [storeDelete, if_pos rfl, List.find?_cons_of_neg _ (by simp [hp])]
    · rw [storeDelete, if_neg h]
      by_cases hr : p r
      · rw [List.find?_cons_of_pos _ hr, List.find?_cons_of_pos _ hr]
      · rw [List.find?_cons_of_neg _ hr, List.find?_cons_of_neg _ hr, ih]

theorem appliedGet_some {o c : Nat} {store : AppliedStore} {app : AppliedMask}
    (h : AppliedMask.get o c store = some app) :
    app.owner_id = o ∧ app.channel_id = c ∧ app ∈ store := by
  have hp := List.find?_some h
  have hm := List.mem_of_find?_eq_some h
  simp only [Bool.and_eq_true, beq_iff_eq] at hp
  exact ⟨hp.1, hp.2, hm⟩

theorem appliedGet_none_iff_countKey_zero (o c : Nat) (store : AppliedStore) :
    AppliedMask.get o c store = none ↔ countKey store o c = 0 := by
  rw [AppliedMask.get, countKey, List.find?_eq_none, List.countP_eq_zero]

theorem rowPred_false_of_ne {o c u v : Nat} (app : AppliedMask)
    (ho : app.owner_id = o) (hc : app.channel_id = c) (hne : ¬(u = o ∧ v = c)) :
    (app.owner_id == u && app.channel_id == v) = false := by
  subst ho; subst hc
  by_cases hu : app.owner_id = u
  · by_cases hv : app.channel_id = v
    · exact absurd ⟨hu.symm, hv.symm⟩ hne
    · simp [hv]
  · simp [hu]

/-- The inductive invariant: the cache agrees with the store and every key has
at most one store row. -/
def goodState (s : MgrState) : Prop :=
  cacheConsistent s ∧ ∀ o c, countKey s.store o c ≤ 1

theorem removeCore_post {s : MgrState} (o c : Nat) (hs : goodState s) :
    goodState (removeCore s o c false).2 ∧
    countKey (removeCore s o c false).2.store o c = 0 ∧
    (removeCore s o c false).1 ≠ .error .storeError := by
  obtain ⟨hcons, hcount⟩ := hs
  cases hcache : dictGet s.cache ⟨o, c⟩ with
  | some v =>
    cases v with
    | none =>
      have hstore : AppliedMask.get o c s.store = none := (hcons o c none hcache).symm
      have hzero : countKey s.store o c = 0 :=
        (appliedGet_none_iff_countKey_zero o c s.store).mp hstore
      have hst : (removeCore s o c false).2 =
          { s with cache := dictSet s.cache ⟨o, c⟩ none } := by
        simp [removeCore, _remove, hcache]
      refine ⟨⟨?_, ?_⟩, ?_, ?_⟩
      · intro u v w hw
        rw [hst] at hw
        by_cases hk : (⟨u, v⟩ : _AppliedMaskKey) = ⟨o, c⟩
        · rw [hk, dictGet_dictSet_self] at hw
          cases hw
          have hu : u = o := congrArg _AppliedMaskKey.owner_id hk
          have hv : v = c := congrArg _AppliedMaskKey.channel_id hk
          rw [hst]; subst hu; subst hv
          exact hstore.symm
        · rw [dictGet_dictSet_ne _ _ _ _ hk] at hw
          rw [hst]
          exact hcons u v w hw
      · intro o' c'; rw [hst]; exact hcount o' c'
      · rw [hst]; exact hzero
      · simp [removeCore, _remove, hcache]
    | some app =>
      have happ : app.owner_id = o ∧ app.channel_id = c ∧ app ∈ s.store :=
        appliedGet_some (hcons o c (some app) hcache).symm
      have hst : (removeCore s o c false).2 =
          ⟨dictSet s.cache ⟨o, c⟩ none, storeDelete s.store app⟩ := by
        simp [removeCore, _remove, hcache]
      have hzero : countKey (storeDelete s.store app) o c = 0 := by
        have h1 := countP_storeDelete_of_pred
          (fun r => r.owner_id == o && r.channel_id == c) s.store app happ.2.2
          (by simp [happ.1, happ.2.1])
        have h2 := hcount o c
        unfold countKey at h2 ⊢
        omega
      refine ⟨⟨?_, ?_⟩, ?_, ?_⟩
      · intro u v w hw
        rw [hst] at hw ⊢
        by_cases hk : (⟨u, v⟩ : _AppliedMaskKey) = ⟨o, c⟩
        · rw [hk, dictGet_dictSet_self] at hw
          cases hw
          have hu : u = o := congrArg _AppliedMaskKey.owner_id hk
          have hv : v = c := congrArg _AppliedMaskKey.channel_id hk
          subst hu; subst hv
          exact ((appliedGet_none_iff_countKey_zero u v _).mpr hzero).symm
        · rw [dictGet_dictSet_ne _ _ _ _ hk] at hw
          have hold := hcons u v w hw
          have hne : ¬(u = o ∧ v = c) := by
            intro hpair
            exact hk (by cases hpair with | intro h1 h2 => rw [h1, h2])
          rw [AppliedMask.get, find?_storeDelete_of_neg _ _ _
            (rowPred_false_of_ne app happ.1 happ.2.1 hne)]
          exact hold
      · intro o' c'
        rw [hst]
        exact le_trans (countP_storeDelete_le _ s.store app) (hcount o' c')
      · rw [hst]; exact hzero
      · simp [removeCore, _remove, hcache]
  | none =>
    cases hstore : AppliedMask.get o c s.store with
    | none =>
      have hst : (removeCore s o c false).2 = s := by
        simp [removeCore, _remove, hcache, hstore]
      rw [hst]
      exact ⟨⟨hcons, hcount⟩,
        (appliedGet_none_iff_countKey_zero o c s.store).mp hstore,
        by simp [removeCore, _remove, hcache, hstore]⟩
    | some app =>
      have happ := appliedGet_some hstore
      have hst : (removeCore s o c false).2 = ⟨s.cache, storeDelete s.store app⟩ := by
        simp [removeCore, _remove, hcache, hstore]
      have hzero : countKey (storeDelete s.store app) o c = 0 := by
        have h1 := countP_storeDelete_of_pred
          (fun r => r.owner_id == o && r.channel_id == c) s.store app happ.2.2
          (by simp [happ.1, happ.2.1])
        have h2 := hcount o c
        unfold countKey at h2 ⊢
        omega
      refine ⟨⟨?_, ?_⟩, ?_, ?_⟩
      · intro u v w hw
        rw [hst] at hw ⊢
        have hk : (⟨u, v⟩ : _AppliedMaskKey) ≠ ⟨o, c⟩ := by
          intro he
          rw [he, hcache] at hw
          exact absurd hw (by simp)
        have hne : ¬(u = o ∧ v = c) := by
          intro hpair
          exact hk (by cases hpair with | intro h1 h2 => rw [h1, h2])
        have hold := hcons u v w hw
        rw [AppliedMask.get, find?_storeDelete_of_neg _ _ _
          (rowPred_false_of_ne app happ.1 happ.2.1 hne)]
        exact hold
      · intro o' c'
        rw [hst]
        exact le_trans (countP_storeDelete_le _ s.store app) (hcount o' c')
      · rw [hst]; exact hzero
      · simp [removeCore, _remove, hcache, hstore]

theorem setCore_state (s : MgrState) (m o c g : Nat) (rec : Bool)
    (hnoerr : (removeCore s o c false).1 ≠ .error .storeError) :
    (setCore s m o c g rec false false).2 =
      ⟨dictSet (removeCore s o c false).2.cache ⟨o, c⟩ (some ⟨m, c, g, o, rec⟩),
       (⟨m, c, g, o, rec⟩ : AppliedMask) :: (removeCore s o c false).2.store⟩ := by
  simp only [setCore]
  cases hr : (removeCore s o c false).1 with
  | ok a => simp [hr, _store]
  | error e =>
    cases e with
    | keyError => simp [hr, _store]
    | storeError => exact absurd hr hnoerr

theorem setCore_post {s : MgrState} (m o c g : Nat) (rec : Bool) (hs : goodState s) :
    goodState (setCore s m o c g rec false false).2 := by
  obtain ⟨⟨hcons', hcount'⟩, hzero, hnoerr⟩ := removeCore_post o c hs
  rw [setCore_state s m o c g rec hnoerr]
  constructor
  · intro u v w hw
    by_cases hk : (⟨u, v⟩ : _AppliedMaskKey) = ⟨o, c⟩
    · rw [hk, dictGet_dictSet_self] at hw
      cases hw
      have hu : u = o := congrArg _AppliedMaskKey.owner_id hk
      have hv : v = c := congrArg _AppliedMaskKey.channel_id hk
      subst hu; subst hv
      rw [AppliedMask.get, List.find?_cons_of_pos _ (by simp)]
    · rw [dictGet_dictSet_ne _ _ _ _ hk] at hw
      have hold := hcons' u v w hw
      have hne : ¬(u = o ∧ v = c) := by
        intro hpair
        exact hk (by cases hpair with | intro h1 h2 => rw [h1, h2])
      rw [AppliedMask.get,
        List.find?_cons_of_neg _
          (by simp [rowPred_false_of_ne ⟨m, c, g, o, rec⟩ rfl rfl hne])]
      exact hold
  · intro o' c'
    by_cases hp : o' = o ∧ c' = c
    · obtain ⟨h1, h2⟩ := hp
      subst h1; subst h2
      unfold countKey at hzero ⊢
      rw [List.countP_cons]
      simp only [beq_self_eq_true, Bool.and_self, if_pos]
      omega
    · unfold countKey at hcount' ⊢
      rw [List.countP_cons]
      rw [if_neg (by simp [rowPred_false_of_ne ⟨m, c, g, o, rec⟩ rfl rfl hp])]
      have := hcount' o' c'
      unfold countKey at this
      omega

theorem applyOp_good {s : MgrState} (op : MgrOp) (hs : goodState s) :
    goodState (applyOp s op) := by
  cases op with
  | setOp m o c g r => exact setCore_post m o c g r hs
  | removeOp o c => exact (removeCore_post o c hs).1

theorem runOps_good (ops : List MgrOp) : goodState (runOps ops) := by
  suffices h : ∀ s, goodState s → goodState (List.foldl applyOp s ops) by
    refine h emptyMgr ⟨(fun u c v hv => nomatch hv), fun o c => ?_⟩
    simp [countKey, emptyMgr]
  induction ops with
  | nil => intro s hs; exact hs
  | cons op rest ih => intro s hs; exact ih _ (applyOp_good op hs)

/-- Claim C9: starting from the empty store, after any finite sequence of `set`
and `remove` calls at most one `AppliedMask` row exists in the store for any
`(owner, channel)` pair — `set` deletes any prior binding for the pair before
persisting the new one instead of accumulating rows. -/
theorem C9_single_binding :
    ∀ (ops : List MgrOp) (o c : Nat), countKey (runOps ops).store o c ≤ 1 :=
  fun ops o c => (runOps_good ops).2 o c

theorem breadth_never_completes (c : HTree) (h : (get_subchannels c).isEmpty = false) :
    ∀ fuel, (_get_all_subchannels_breadth fuel c).2 = false := by
  intro fuel
  induction fuel with
  | zero => rfl
  | succ n ih =>
    simp only [_get_all_subchannels_breadth, h, Bool.false_eq_true, if_false]
    simp [ih]

/-- Text channel 3, a leaf. -/
def exChan : HTree := .node 3 .text []

/-- Category 2 holding channel 3. -/
def exCat : HTree := .node 2 .category [exChan]

/-- Guild 1 holding category 2 — the failing input for the breadth-first
traversal. -/
def exGuild : HTree := .node 1 .guild [exCat]

theorem breadth_exGuild_prefix :
    ∀ fuel, (_get_all_subchannels_breadth fuel exGuild).1 = List.replicate fuel exCat := by
  intro fuel
  induction fuel with
  | zero => rfl
  | succ n ih =>
    have hflag := breadth_never_completes exGuild rfl n
    have hne : (get_subchannels exGuild).isEmpty = false := rfl
    have hsub : get_subchannels exGuild = [exCat] := rfl
    simp only [_get_all_subchannels_breadth, hne, Bool.false_eq_true, if_false, hflag,
      hsub, ih]
    simp [List.replicate_succ]

/-- Claim C4: false on the code — `_get_all_subchannels_breadth` recurses on
`channel` instead of `sub`.  On a guild with one category containing one text
channel: the breadth-first generator never completes at any recursion budget,
its yielded prefix revisits the category (already `[exCat, exCat]` within
budget 2 — not each descendant exactly once), and the membership test of
`is_subchannel` for the grandchild channel never returns at any budget (the
generator yields only the category, forever). -/
theorem C4_breadth_first_diverges :
    (∀ fuel, (_get_all_subchannels_breadth fuel exGuild).2 = false) ∧
    (_get_all_subchannels_breadth 2 exGuild).1 = [exCat, exCat] ∧
    (∀ fuel, is_subchannel fuel exChan exGuild = none) := by
  refine ⟨breadth_never_completes exGuild rfl, rfl, ?_⟩
  intro fuel
  have hflag := breadth_never_completes exGuild rfl fuel
  have hpre := breadth_exGuild_prefix fuel
  have hrep : ∀ k, ((List.replicate k exCat).any (fun n => n.sameObj exChan)) = false := by
    intro k
    induction k with
    | zero => rfl
    | succ k ihk =>
      rw [List.replicate_succ, List.any_cons, ihk]
      rfl
  have hany : ((_get_all_subchannels_breadth fuel exGuild).1.any
      (fun n => n.sameObj exChan)) = false := by
    rw [hpre]
    exact hrep fuel
  rw [is_subchannel]
  simp [hany, hflag]
